import Mathlib

/-!
Verification of the benchmark-plot pipeline of `obspy/segy/benchmark.py`:
the helper `_calcOffset` and the data-preparation and layout stages of
`plotBenchmark` (trace trimming, per-trace offset computation, amplitude
normalization, axis-bound derivation, clipping of traces that leave the
explicit axis bounds, and the empty-input short circuit).

Modelling conventions: Python floats are real numbers, the integer header
fields are integers, numpy arrays of samples are lists of reals, and a
Python exception is an `Option.none` result.  `max` / `min` over a nonempty
sequence are the `foldMax` / `foldMin` helpers below.
-/

namespace Benchmark

noncomputable section

/-- The SU trace-header fields read by the benchmark module. -/
structure TraceHeader where
  scalar_to_be_applied_to_all_coordinates : ℤ
  source_coordinate_x : ℤ
  source_coordinate_y : ℤ
  group_coordinate_x : ℤ
  group_coordinate_y : ℤ
  sample_interval_in_ms_for_this_trace : ℤ

/-- One trace: a header plus its sample array. -/
structure Trace where
  header : TraceHeader
  data : List ℝ

/-- One SU file: an ordered list of traces. -/
structure SUFile where
  traces : List Trace

/-- Python's `max` over the nonempty sequence `x :: xs`. -/
def foldMax {α : Type} [LinearOrder α] (x : α) : List α → α
  | [] => x
  | y :: ys => max y (foldMax x ys)

/-- Python's `min` over the nonempty sequence `x :: xs`. -/
def foldMin {α : Type} [LinearOrder α] (x : α) : List α → α
  | [] => x
  | y :: ys => min y (foldMin x ys)

theorem foldMin_le_foldMax {α : Type} [LinearOrder α] (x : α) (xs : List α) :
    foldMin x xs ≤ foldMax x xs := by
  induction xs with
  | nil => exact le_refl x
  | cons y ys ih =>
    exact le_trans (min_le_left y (foldMin x ys)) (le_max_left y (foldMax x ys))

theorem self_le_foldMax {α : Type} [LinearOrder α] (x : α) (xs : List α) :
    x ≤ foldMax x xs := by
  induction xs with
  | nil => exact le_refl x
  | cons y ys ih => exact le_trans ih (le_max_right y (foldMax x ys))

theorem le_foldMax_of_mem {α : Type} [LinearOrder α] {y : α} (x : α) {xs : List α}
    (h : y ∈ xs) : y ≤ foldMax x xs := by
  induction xs with
  | nil => cases h
  | cons z zs ih =>
    rcases List.mem_cons.mp h with h1 | h2
    · exact h1 ▸ le_max_left z (foldMax x zs)
    · exact le_trans (ih h2) (le_max_right z (foldMax x zs))

theorem foldMin_le_self {α : Type} [LinearOrder α] (x : α) (xs : List α) :
    foldMin x xs ≤ x := by
  induction xs with
  | nil => exact le_refl x
  | cons y ys ih => exact le_trans (min_le_right y (foldMin x ys)) ih

theorem foldMin_le_of_mem {α : Type} [LinearOrder α] {y : α} (x : α) {xs : List α}
    (h : y ∈ xs) : foldMin x xs ≤ y := by
  induction xs with
  | nil => cases h
  | cons z zs ih =>
    rcases List.mem_cons.mp h with h1 | h2
    · exact h1 ▸ min_le_left z (foldMin x zs)
    · exact le_trans (min_le_right z (foldMin x zs)) (ih h2)

theorem le_foldMin {α : Type} [LinearOrder α] {b x : α} {xs : List α}
    (hx : b ≤ x) (hxs : ∀ y ∈ xs, b ≤ y) : b ≤ foldMin x xs := by
  induction xs with
  | nil => exact hx
  | cons y ys ih =>
    exact le_min (hxs y (List.mem_cons_self y ys))
      (ih fun z hz => hxs z (List.mem_cons_of_mem y hz))

theorem foldMin_mem {α : Type} [LinearOrder α] (x : α) (xs : List α) :
    foldMin x xs = x ∨ foldMin x xs ∈ xs := by
  induction xs with
  | nil => exact Or.inl rfl
  | cons y ys ih =>
    rcases min_choice y (foldMin x ys) with h | h
    · exact Or.inr (by rw [foldMin, h]; exact List.mem_cons_self y ys)
    · rcases ih with h1 | h2
      · exact Or.inl (by rw [foldMin, h, h1])
      · exact Or.inr (by rw [foldMin, h]; exact List.mem_cons_of_mem y h2)

theorem foldMax_map_div (x : ℝ) (xs : List ℝ) {c : ℝ} (hc : 0 < c) :
    foldMax (x / c) (xs.map fun s => s / c) = foldMax x xs / c := by
  induction xs with
  | nil => rfl
  | cons y ys ih =>
    simp only [List.map_cons, foldMax, ih]
    exact max_div_div_right hc.le y (foldMax x ys)

theorem foldMin_map_div (x : ℝ) (xs : List ℝ) {c : ℝ} (hc : 0 < c) :
    foldMin (x / c) (xs.map fun s => s / c) = foldMin x xs / c := by
  induction xs with
  | nil => rfl
  | cons y ys ih =>
    simp only [List.map_cons, foldMin, ih]
    exact min_div_div_right hc.le y (foldMin x ys)

theorem foldMax_map_const {α : Type} (a : ℝ) (xs : List α) :
    foldMax a (xs.map fun _ => a) = a := by
  induction xs with
  | nil => rfl
  | cons y ys ih => simp only [List.map_cons, foldMax, ih, max_self]

theorem foldMin_map_const {α : Type} (a : ℝ) (xs : List α) :
    foldMin a (xs.map fun _ => a) = a := by
  induction xs with
  | nil => rfl
  | cons y ys ih => simp only [List.map_cons, foldMin, ih, min_self]

/-- The sequential evaluation of a Python list comprehension whose body can
raise: `none` as soon as one element fails. -/
def mapOption {α β : Type} (f : α → Option β) : List α → Option (List β)
  | [] => some []
  | x :: xs =>
    match f x, mapOption f xs with
    | some y, some ys => some (y :: ys)
    | _, _ => none

theorem mapOption_forall2 {α β : Type} {f : α → Option β} :
    ∀ {l : List α} {l' : List β}, mapOption f l = some l' →
      List.Forall₂ (fun a b => f a = some b) l l' := by
  intro l
  induction l with
  | nil => intro l' h; cases h; exact List.Forall₂.nil
  | cons x xs ih =>
    intro l' h
    unfold mapOption at h
    cases hx : f x with
    | none => rw [hx] at h; cases h
    | some y =>
      rw [hx] at h
      cases hxs : mapOption f xs with
      | none => rw [hxs] at h; cases h
      | some ys =>
        rw [hxs] at h
        cases h
        exact List.Forall₂.cons hx (ih hxs)

theorem mapOption_eq_none_of_mem {α β : Type} {f : α → Option β} {a : α} :
    ∀ {l : List α}, a ∈ l → f a = none → mapOption f l = none := by
  intro l
  induction l with
  | nil => intro h; cases h
  | cons x xs ih =>
    intro hmem hfa
    unfold mapOption
    rcases List.mem_cons.mp hmem with h1 | h2
    · rw [← h1, hfa]
    · rw [ih h2 hfa]
      cases f x <;> rfl

theorem forall2_mem_right {α β : Type} {R : α → β → Prop} {b : β} :
    ∀ {l : List α} {l' : List β}, List.Forall₂ R l l' → b ∈ l' →
      ∃ a, a ∈ l ∧ R a b := by
  intro l l' h
  induction h with
  | nil => intro h; cases h
  | cons hr _ ih =>
    intro hmem
    rcases List.mem_cons.mp hmem with h1 | h2
    · exact ⟨_, List.mem_cons_self _ _, h1 ▸ hr⟩
    · rcases ih h2 with ⟨a, ha, hab⟩
      exact ⟨a, List.mem_cons_of_mem _ ha, hab⟩

theorem forall2_mem_left {α β : Type} {R : α → β → Prop} {a : α} :
    ∀ {l : List α} {l' : List β}, List.Forall₂ R l l' → a ∈ l →
      ∃ b, b ∈ l' ∧ R a b := by
  intro l l' h
  induction h with
  | nil => intro h; cases h
  | cons hr _ ih =>
    intro hmem
    rcases List.mem_cons.mp hmem with h1 | h2
    · exact ⟨_, List.mem_cons_self _ _, h1 ▸ hr⟩
    · rcases ih h2 with ⟨b, hb, hab⟩
      exact ⟨b, List.mem_cons_of_mem _ hb, hab⟩

theorem forall2_map_self {α : Type} {R : α → α → Prop} {F : α → α} :
    ∀ {l : List α}, (∀ a ∈ l, R a (F a)) → List.Forall₂ R l (l.map F) := by
  intro l
  induction l with
  | nil => intro _; exact List.Forall₂.nil
  | cons x xs ih =>
    intro h
    exact List.Forall₂.cons (h x (List.mem_cons_self x xs))
      (ih fun a ha => h a (List.mem_cons_of_mem x ha))

/-! ## Offset Calculator (`_calcOffset`, lines 23-38) -/

/-- Lines 32-34: `scalco = abs(...)`, and the non-standard convention that a
value below 10 and different from 1 is an exponent to the base of 10. -/
def effScalco (th : TraceHeader) : ℕ :=
  if th.scalar_to_be_applied_to_all_coordinates.natAbs < 10 ∧
      th.scalar_to_be_applied_to_all_coordinates.natAbs ≠ 1 then
    10 ^ th.scalar_to_be_applied_to_all_coordinates.natAbs
  else th.scalar_to_be_applied_to_all_coordinates.natAbs

/-- Lines 36-37: `sqrt((group_x - source_x)^2 + (group_y - source_y)^2)`. -/
def rawDistance (th : TraceHeader) : ℝ :=
  Real.sqrt (((th.group_coordinate_x - th.source_coordinate_x : ℤ) : ℝ) ^ 2 +
    ((th.group_coordinate_y - th.source_coordinate_y : ℤ) : ℝ) ^ 2)

/-- `_calcOffset` (lines 23-38): `1.0 / scalco * sqrt(...)`. -/
def _calcOffset (tr : Trace) : ℝ :=
  1 / (effScalco tr.header : ℝ) * rawDistance tr.header

/-- `_calcOffset` with Python's division semantics made explicit: a float
division `1.0 / scalco` raises `ZeroDivisionError` exactly when the
effective scale is zero. -/
def _calcOffsetE (tr : Trace) : Option ℝ :=
  if effScalco tr.header = 0 then none
  else some (1 / (effScalco tr.header : ℝ) * rawDistance tr.header)

theorem effScalco_pos (th : TraceHeader) : 0 < effScalco th := by
  unfold effScalco
  split
  · exact pow_pos (by norm_num) _
  · omega

/-- The offset computation never raises: the exponent branch turns every
scale value below 10 (zero included) into a positive power of ten. -/
theorem _calcOffsetE_eq_some (tr : Trace) : _calcOffsetE tr = some (_calcOffset tr) := by
  unfold _calcOffsetE _calcOffset
  rw [if_neg (Nat.pos_iff_ne_zero.mp (effScalco_pos tr.header))]

/-- Modelled from the spec's words (§4.1), for comparison with `effScalco`:
the divisor is `10 ^ scalco` whenever `1 < scalco < 10` and `scalco` itself
otherwise. -/
def specDivisor (th : TraceHeader) : ℕ :=
  if 1 < th.scalar_to_be_applied_to_all_coordinates.natAbs ∧
      th.scalar_to_be_applied_to_all_coordinates.natAbs < 10 then
    10 ^ th.scalar_to_be_applied_to_all_coordinates.natAbs
  else th.scalar_to_be_applied_to_all_coordinates.natAbs

/-- Modelled from the spec's words (§4.1): offset as
`(1/divisor) * sqrt((group_x - source_x)^2 + (group_y - source_y)^2)`. -/
def specOffset (tr : Trace) : ℝ :=
  1 / (specDivisor tr.header : ℝ) * rawDistance tr.header

/-- A header with coordinate-scale field 0 and a 3-4-5 source/receiver
geometry. -/
def zeroScalcoHeader : TraceHeader :=
  { scalar_to_be_applied_to_all_coordinates := 0
    source_coordinate_x := 0
    source_coordinate_y := 0
    group_coordinate_x := 3
    group_coordinate_y := 4
    sample_interval_in_ms_for_this_trace := 4000 }

def zeroScalcoTrace : Trace := { header := zeroScalcoHeader, data := [0] }

theorem rawDistance_zeroScalco : rawDistance zeroScalcoHeader = 5 := by
  unfold rawDistance zeroScalcoHeader
  rw [show ((((3 : ℤ) - 0 : ℤ) : ℝ) ^ 2 + (((4 : ℤ) - 0 : ℤ) : ℝ) ^ 2) = 5 ^ 2 by norm_num]
  exact Real.sqrt_sq (by norm_num)

theorem effScalco_zeroScalco : effScalco zeroScalcoHeader = 1 := by decide

theorem specDivisor_zeroScalco : specDivisor zeroScalcoHeader = 0 := by decide

/-- C2 counterexample: on a header whose scale field is 0, the code's offset
(raw distance, 5 here) differs from the spec's formula, whose divisor is
`scalco` itself, i.e. 0. -/
theorem calcOffset_ne_specOffset_at_scalco_zero :
    _calcOffset zeroScalcoTrace ≠ specOffset zeroScalcoTrace := by
  unfold _calcOffset specOffset zeroScalcoTrace
  rw [rawDistance_zeroScalco, effScalco_zeroScalco, specDivisor_zeroScalco]
  norm_num

/-- C2 (amended): for every trace header whose coordinate-scale field is
nonzero, the computed offset is `(1/divisor) * sqrt((gx-sx)^2 + (gy-sy)^2)`
with divisor `10^scalco` when `1 < scalco < 10` and `scalco` itself
otherwise; the scale field 0 instead falls into the exponent branch and
yields divisor `10^0 = 1`. -/
theorem calcOffset_eq_specOffset_of_scalco_ne_zero (tr : Trace)
    (h : tr.header.scalar_to_be_applied_to_all_coordinates ≠ 0) :
    _calcOffset tr = specOffset tr := by
  unfold _calcOffset specOffset
  have hne : tr.header.scalar_to_be_applied_to_all_coordinates.natAbs ≠ 0 :=
    Int.natAbs_ne_zero.mpr h
  have : effScalco tr.header = specDivisor tr.header := by
    unfold effScalco specDivisor
    have hiff : (tr.header.scalar_to_be_applied_to_all_coordinates.natAbs < 10 ∧
        tr.header.scalar_to_be_applied_to_all_coordinates.natAbs ≠ 1) ↔
        (1 < tr.header.scalar_to_be_applied_to_all_coordinates.natAbs ∧
        tr.header.scalar_to_be_applied_to_all_coordinates.natAbs < 10) := by
      omega
    rw [if_congr hiff rfl rfl]
  rw [this]

/-- A header with coordinate-scale field 2 (exponent convention). -/
def scalcoTwoTrace : Trace :=
  { header :=
      { scalar_to_be_applied_to_all_coordinates := 2
        source_coordinate_x := 0
        source_coordinate_y := 0
        group_coordinate_x := 3
        group_coordinate_y := 4
        sample_interval_in_ms_for_this_trace := 4000 }
    data := [0] }

theorem calcOffset_spec_agreement_witness :
    scalcoTwoTrace.header.scalar_to_be_applied_to_all_coordinates ≠ 0 ∧
      _calcOffset scalcoTwoTrace = specOffset scalcoTwoTrace :=
  ⟨by decide, calcOffset_eq_specOffset_of_scalco_ne_zero scalcoTwoTrace (by decide)⟩

/-- C5 counterexample: for the trace with coordinate-scale field 0 the
offset calculator does not fail; it returns the raw Euclidean distance 5. -/
theorem calcOffsetE_succeeds_at_scalco_zero : _calcOffsetE zeroScalcoTrace = some 5 := by
  rw [_calcOffsetE_eq_some]
  unfold _calcOffset zeroScalcoTrace
  rw [rawDistance_zeroScalco, effScalco_zeroScalco]
  norm_num

/-- C5 (amended): a coordinate-scale field of 0 is not an error: `abs` gives
`scalco = 0`, the exponent branch replaces it by `10^0 = 1`, and the offset
calculator returns the raw Euclidean distance. -/
theorem calcOffsetE_raw_distance_of_scalco_zero (tr : Trace)
    (h : tr.header.scalar_to_be_applied_to_all_coordinates = 0) :
    _calcOffsetE tr = some (rawDistance tr.header) := by
  rw [_calcOffsetE_eq_some]
  unfold _calcOffset
  have h0 : effScalco tr.header = 1 := by
    unfold effScalco
    rw [h]
    decide
  rw [h0]
  norm_num

theorem calcOffsetE_scalco_zero_witness :
    zeroScalcoTrace.header.scalar_to_be_applied_to_all_coordinates = 0 ∧
      _calcOffsetE zeroScalcoTrace = some (rawDistance zeroScalcoTrace.header) :=
  ⟨rfl, calcOffsetE_raw_distance_of_scalco_zero zeroScalcoTrace rfl⟩

/-! ## Trace Aligner (lines 139-148) -/

/-- Line 143: `min([len(tr.data) for tr in st.traces])`; Python's `min`
raises on an empty sequence. -/
def streamMinNpts (st : SUFile) : Option ℕ :=
  match st.traces.map fun tr => tr.data.length with
  | [] => none
  | n :: ns => some (foldMin n ns)

/-- Lines 141-144: the globally smallest trace length `npts`. -/
def globalMinLen (streams : List SUFile) : Option ℕ :=
  match mapOption streamMinNpts streams with
  | some (n :: ns) => some (foldMin n ns)
  | _ => none

/-- Lines 146-148: `tr.data = tr.data[0:npts]` for every trace. -/
def trimAll (npts : ℕ) (streams : List SUFile) : List SUFile :=
  streams.map fun st =>
    { traces := st.traces.map fun tr => { header := tr.header, data := tr.data.take npts } }

/-- Lines 139-148: the aligner runs only when `trim_to_smallest_trace`. -/
def trimStage (trim : Bool) (streams : List SUFile) : Option (List SUFile) :=
  if trim then (globalMinLen streams).map fun npts => trimAll npts streams
  else some streams

theorem foldMin_le_of_mem_cons {α : Type} [LinearOrder α] {y x : α} {xs : List α}
    (h : y ∈ x :: xs) : foldMin x xs ≤ y := by
  rcases List.mem_cons.mp h with h1 | h2
  · exact h1 ▸ foldMin_le_self x xs
  · exact foldMin_le_of_mem x h2

theorem foldMin_mem_cons {α : Type} [LinearOrder α] (x : α) (xs : List α) :
    foldMin x xs ∈ x :: xs := by
  rcases foldMin_mem x xs with h | h
  · rw [h]; exact List.mem_cons_self x xs
  · exact List.mem_cons_of_mem x h

/-- The value produced by `globalMinLen` is the length of some trace and a
lower bound on all trace lengths. -/
theorem globalMinLen_spec {streams : List SUFile} {g : ℕ}
    (hg : globalMinLen streams = some g) :
    (∃ st ∈ streams, ∃ tr ∈ st.traces, tr.data.length = g) ∧
      ∀ st ∈ streams, ∀ tr ∈ st.traces, g ≤ tr.data.length := by
  unfold globalMinLen at hg
  cases hmap : mapOption streamMinNpts streams with
  | none => rw [hmap] at hg; cases hg
  | some l =>
    rw [hmap] at hg
    cases l with
    | nil => cases hg
    | cons n ns =>
      injection hg with hv
      have h2 := mapOption_forall2 hmap
      constructor
      · rcases forall2_mem_right h2 (foldMin_mem_cons n ns) with ⟨st, hst, hspec⟩
        refine ⟨st, hst, ?_⟩
        unfold streamMinNpts at hspec
        cases hl : st.traces.map (fun tr => tr.data.length) with
        | nil => rw [hl] at hspec; cases hspec
        | cons k ks =>
          rw [hl] at hspec
          injection hspec with hk
          have hmem : foldMin k ks ∈ st.traces.map (fun tr => tr.data.length) := by
            rw [hl]; exact foldMin_mem_cons k ks
          rcases List.mem_map.mp hmem with ⟨tr, htr, hlen⟩
          exact ⟨tr, htr, by rw [hlen, hk, hv]⟩
      · intro st hst tr htr
        rcases forall2_mem_left h2 hst with ⟨v, hvmem, hspec⟩
        unfold streamMinNpts at hspec
        cases hl : st.traces.map (fun tr => tr.data.length) with
        | nil => rw [hl] at hspec; cases hspec
        | cons k ks =>
          rw [hl] at hspec
          injection hspec with hk
          have hle1 : g ≤ v := by
            rw [← hv]; exact foldMin_le_of_mem_cons hvmem
          have hle2 : v ≤ tr.data.length := by
            rw [← hk]
            apply foldMin_le_of_mem_cons
            rw [← hl]
            exact List.mem_map.mpr ⟨tr, htr, rfl⟩
          exact le_trans hle1 hle2

/-- C7: with trimming enabled, every trace in every collection is truncated
to the globally shortest trace length `g` (the kept samples are a prefix of
the original ones, the header is unchanged, and the resulting length is
exactly `g`); with trimming disabled the stage returns the input
untouched. -/
theorem trim_to_smallest_trace_spec (streams : List SUFile) :
    trimStage false streams = some streams ∧
    ∀ out g, trimStage true streams = some out → globalMinLen streams = some g →
      (∃ st ∈ streams, ∃ tr ∈ st.traces, tr.data.length = g) ∧
      (∀ st ∈ streams, ∀ tr ∈ st.traces, g ≤ tr.data.length) ∧
      List.Forall₂ (fun st st' : SUFile =>
        List.Forall₂ (fun tr tr' : Trace =>
          tr'.header = tr.header ∧ tr'.data = tr.data.take g ∧ tr'.data.length = g)
          st.traces st'.traces) streams out := by
  constructor
  · rfl
  · intro out g h1 h2
    have hspec := globalMinLen_spec h2
    unfold trimStage at h1
    rw [if_pos rfl, h2] at h1
    injection h1 with hout
    refine ⟨hspec.1, hspec.2, ?_⟩
    rw [← hout]
    unfold trimAll
    apply forall2_map_self
    intro st hst
    show List.Forall₂ _ st.traces (st.traces.map _)
    apply forall2_map_self
    intro tr htr
    refine ⟨rfl, rfl, ?_⟩
    show (tr.data.take g).length = g
    rw [List.length_take]
    exact Nat.min_eq_left (hspec.2 st hst tr htr)

/-- Collections with trace lengths `[2, 3]` and `[1]`. -/
def trimExampleStreams : List SUFile :=
  [{ traces := [{ header := zeroScalcoHeader, data := [1, 2] },
                { header := zeroScalcoHeader, data := [3, 4, 5] }] },
   { traces := [{ header := zeroScalcoHeader, data := [6] }] }]

def trimExampleOut : List SUFile :=
  [{ traces := [{ header := zeroScalcoHeader, data := [1] },
                { header := zeroScalcoHeader, data := [3] }] },
   { traces := [{ header := zeroScalcoHeader, data := [6] }] }]

theorem trim_to_smallest_trace_witness :
    trimStage true trimExampleStreams = some trimExampleOut ∧
    globalMinLen trimExampleStreams = some 1 ∧
    ∀ st ∈ trimExampleStreams, ∀ tr ∈ st.traces, 1 ≤ tr.data.length := by
  have h1 : globalMinLen trimExampleStreams = some 1 := rfl
  have h2 : trimStage true trimExampleStreams = some trimExampleOut := rfl
  exact ⟨h2, h1,
    ((trim_to_smallest_trace_spec trimExampleStreams).2 trimExampleOut 1 h2 h1).2.1⟩

/-! ## Offset spacing (lines 150-157) -/

/-- Lines 152-156: per-stream `(max(temp) - min(temp)) / len(st.traces)`
where `temp` is the list of per-trace offsets; `max`/`min` raise when the
stream has no traces. -/
def streamSpacing (st : SUFile) : Option ℝ :=
  match st.traces.map _calcOffset with
  | [] => none
  | o :: os => some ((foldMax o os - foldMin o os) / (st.traces.length : ℝ))

/-- Lines 150-157: `min_offset = min(offsets)`. -/
def minOffsetSpacing (streams : List SUFile) : Option ℝ :=
  match mapOption streamSpacing streams with
  | some (o :: os) => some (foldMin o os)
  | _ => none

theorem streamSpacing_nonneg {st : SUFile} {v : ℝ}
    (h : streamSpacing st = some v) : 0 ≤ v := by
  unfold streamSpacing at h
  cases hl : st.traces.map _calcOffset with
  | nil => rw [hl] at h; cases h
  | cons o os =>
    rw [hl] at h
    injection h with hv
    rw [← hv]
    exact div_nonneg (sub_nonneg.mpr (foldMin_le_foldMax o os)) (Nat.cast_nonneg _)

theorem minOffsetSpacing_nonneg {streams : List SUFile} {m : ℝ}
    (h : minOffsetSpacing streams = some m) : 0 ≤ m := by
  unfold minOffsetSpacing at h
  cases hmap : mapOption streamSpacing streams with
  | none => rw [hmap] at h; cases h
  | some l =>
    rw [hmap] at h
    cases l with
    | nil => cases h
    | cons o os =>
      injection h with hv
      rw [← hv]
      have h2 := mapOption_forall2 hmap
      apply le_foldMin
      · rcases forall2_mem_right h2 (List.mem_cons_self o os) with ⟨st, _, hs⟩
        exact streamSpacing_nonneg hs
      · intro y hy
        rcases forall2_mem_right h2 (List.mem_cons_of_mem o hy) with ⟨st, _, hs⟩
        exact streamSpacing_nonneg hs

/-! ## Amplitude Normalizer (lines 159-177) -/

/-- The recognized values of the `normalize` keyword. -/
inductive Normalize where
  | none : Normalize
  | stream : Normalize
  | traces : Normalize

/-- `tr.data.max()`: raises on an empty array. -/
def traceMax (tr : Trace) : Option ℝ :=
  match tr.data with
  | [] => none
  | x :: xs => some (foldMax x xs)

/-- `tr.data.min()`: raises on an empty array. -/
def traceMin (tr : Trace) : Option ℝ :=
  match tr.data with
  | [] => none
  | x :: xs => some (foldMin x xs)

/-- Line 164: `max([_i.data.max() for _i in st.traces])`. -/
def streamMax (st : SUFile) : Option ℝ :=
  match mapOption traceMax st.traces with
  | some (x :: xs) => some (foldMax x xs)
  | _ => none

/-- Line 165: `min([_i.data.min() for _i in st.traces])`. -/
def streamMin (st : SUFile) : Option ℝ :=
  match mapOption traceMin st.traces with
  | some (x :: xs) => some (foldMin x xs)
  | _ => none

/-- Lines 161-168: the global `maximum - minimum` over all collections,
computed whenever the policy is not `'stream'`. -/
def globalRange (streams : List SUFile) : Option ℝ :=
  match mapOption streamMax streams, mapOption streamMin streams with
  | some (a :: al), some (b :: bl) => some (foldMax a al - foldMin b bl)
  | _, _ => none

/-- Lines 170-172: the per-collection data range. -/
def streamRange (st : SUFile) : Option ℝ :=
  match streamMax st, streamMin st with
  | some hi, some lo => some (hi - lo)
  | _, _ => none

/-- Line 175: `tr.data.max() - tr.data.min()`. -/
def traceRangeO (tr : Trace) : Option ℝ :=
  match traceMax tr, traceMin tr with
  | some hi, some lo => some (hi - lo)
  | _, _ => none

/-- `max - min` of a trace's samples (0 for an empty trace). -/
def traceRange (tr : Trace) : ℝ :=
  match tr.data with
  | [] => 0
  | x :: xs => foldMax x xs - foldMin x xs

/-- Lines 176-177: `data_range = abs(data_range)` followed by
`tr.data /= (data_range / (min_offset * scale))`. -/
def normTrace (data_range min_offset scale : ℝ) (tr : Trace) : Trace :=
  { header := tr.header
    data := tr.data.map fun s => s / (|data_range| / (min_offset * scale)) }

/-- Lines 173-177: under policy `'traces'` the data range is recomputed from
the trace itself; otherwise the enclosing range is used. -/
def normalizeTraceP (p : Normalize) (outer min_offset scale : ℝ) (tr : Trace) : Option Trace :=
  match p with
  | Normalize.traces => (traceRangeO tr).map fun dr => normTrace dr min_offset scale tr
  | _ => some (normTrace outer min_offset scale tr)

/-- Lines 169-177: under policy `'stream'` the data range is recomputed per
collection. -/
def normalizeStreamP (p : Normalize) (global min_offset scale : ℝ) (st : SUFile) :
    Option SUFile :=
  match p with
  | Normalize.stream =>
    (streamRange st).bind fun dr =>
      (mapOption (normalizeTraceP p dr min_offset scale) st.traces).map SUFile.mk
  | _ => (mapOption (normalizeTraceP p global min_offset scale) st.traces).map SUFile.mk

/-- Lines 159-177: the whole normalization stage; the global data range is
computed exactly when the policy is not `'stream'`. -/
def normalizeStreams (p : Normalize) (min_offset scale : ℝ) (streams : List SUFile) :
    Option (List SUFile) :=
  match p with
  | Normalize.stream => mapOption (normalizeStreamP p 0 min_offset scale) streams
  | _ =>
    (globalRange streams).bind fun g =>
      mapOption (normalizeStreamP p g min_offset scale) streams

theorem traceRangeO_eq {tr : Trace} {dr : ℝ} (h : traceRangeO tr = some dr) :
    dr = traceRange tr ∧ tr.data ≠ [] := by
  unfold traceRangeO traceMax traceMin at h
  cases hdata : tr.data with
  | nil => rw [hdata] at h; cases h
  | cons x xs =>
    rw [hdata] at h
    injection h with hv
    refine ⟨?_, ?_⟩
    · rw [← hv]
      simp only [traceRange, hdata]
    · exact List.cons_ne_nil x xs

/-- Dividing a nonempty sample list by `|R| / ms`, with `R` its own range,
`R ≠ 0` and `0 ≤ ms`, produces a list whose range is exactly `ms`. -/
theorem range_after_normalize (x : ℝ) (xs : List ℝ) (ms : ℝ) (hms : 0 ≤ ms)
    (hR : foldMax x xs - foldMin x xs ≠ 0) :
    foldMax (x / (|foldMax x xs - foldMin x xs| / ms))
        (xs.map fun s => s / (|foldMax x xs - foldMin x xs| / ms)) -
      foldMin (x / (|foldMax x xs - foldMin x xs| / ms))
        (xs.map fun s => s / (|foldMax x xs - foldMin x xs| / ms)) = ms := by
  rcases eq_or_lt_of_le hms with hms0 | hmspos
  · rw [← hms0]
    simp only [div_zero]
    rw [foldMax_map_const, foldMin_map_const, sub_self]
  · have hRpos : 0 < foldMax x xs - foldMin x xs :=
      lt_of_le_of_ne (sub_nonneg.mpr (foldMin_le_foldMax x xs)) (Ne.symm hR)
    have hc : 0 < |foldMax x xs - foldMin x xs| / ms :=
      div_pos (abs_pos.mpr hR) hmspos
    rw [foldMax_map_div x xs hc, foldMin_map_div x xs hc, div_sub_div_same,
      abs_of_pos hRpos, div_div_eq_mul_div, mul_comm,
      mul_div_assoc, div_self hR, mul_one]

/-- C1: for policy `'traces'`, after the Amplitude Normalizer runs every
trace's sample range (max - min) equals `min_offset * scale`, exactly in
the real-number model, where `min_offset` is the minimum over all
collections of `(max_offset - min_offset) / traceCount`; independence of
the other traces' amplitudes is witnessed by the per-trace recomputation
of the data range.  Hypotheses: nonnegative scale factor, and no flat or
empty trace in the input. -/
theorem normalize_traces_range (streams out : List SUFile) (m scale : ℝ)
    (hscale : 0 ≤ scale)
    (hm : minOffsetSpacing streams = some m)
    (hflat : ∀ st ∈ streams, ∀ tr ∈ st.traces, traceRange tr ≠ 0)
    (hrun : normalizeStreams Normalize.traces m scale streams = some out) :
    ∀ st' ∈ out, ∀ tr' ∈ st'.traces, traceRange tr' = m * scale := by
  intro st' hst' tr' htr'
  have hms : 0 ≤ m * scale := mul_nonneg (minOffsetSpacing_nonneg hm) hscale
  unfold normalizeStreams at hrun
  rcases Option.bind_eq_some.mp hrun with ⟨g, _, hmap⟩
  rcases forall2_mem_right (mapOption_forall2 hmap) hst' with ⟨st, hst, hstP⟩
  unfold normalizeStreamP at hstP
  rcases Option.map_eq_some'.mp hstP with ⟨l', hl', hmk⟩
  have htrl : tr' ∈ l' := by rw [← hmk] at htr'; exact htr'
  rcases forall2_mem_right (mapOption_forall2 hl') htrl with ⟨tr, htr, htrP⟩
  unfold normalizeTraceP at htrP
  rcases Option.map_eq_some'.mp htrP with ⟨dr, hdr, htr'eq⟩
  rcases traceRangeO_eq hdr with ⟨hdrval, hne⟩
  cases hdata : tr.data with
  | nil => exact absurd hdata hne
  | cons x xs =>
    have hR : foldMax x xs - foldMin x xs ≠ 0 := by
      have hfl := hflat st hst tr htr
      simp only [traceRange, hdata] at hfl
      exact hfl
    have hdr2 : dr = foldMax x xs - foldMin x xs := by
      rw [hdrval]; simp only [traceRange, hdata]
    rw [← htr'eq]
    simp only [normTrace, hdata, List.map_cons, traceRange, hdr2]
    exact range_after_normalize x xs (m * scale) hms hR

/-- A flat trace: every sample equals 1. -/
def flatTrace : Trace := { header := zeroScalcoHeader, data := [1, 1] }

def flatStreams : List SUFile := [{ traces := [flatTrace] }]

/-- C6: the code does not raise on a flat trace.  The zero data range is
divided through silently (`tr.data /= (0.0 / (min_offset * scale))`; in
floating point this propagates Inf/NaN with only a warning, in the
real-number model every sample becomes 0).  No `DegenerateTraceError`
exists anywhere in the source. -/
theorem normalize_flat_trace_silent :
    normalizeStreams Normalize.traces 5 2 flatStreams =
      some [{ traces := [{ header := zeroScalcoHeader, data := [0, 0] }] }] := by
  norm_num [normalizeStreams, globalRange, streamMax, streamMin, mapOption,
    traceMax, traceMin, normalizeStreamP, normalizeTraceP, traceRangeO,
    normTrace, flatStreams, flatTrace, foldMax, foldMin, max_def, min_def,
    Option.bind]

/-- Header with co-located source and receiver (offset 0). -/
def offsetHeader0 : TraceHeader :=
  { scalar_to_be_applied_to_all_coordinates := 1
    source_coordinate_x := 0
    source_coordinate_y := 0
    group_coordinate_x := 0
    group_coordinate_y := 0
    sample_interval_in_ms_for_this_trace := 4000 }

/-- Header with a 6-8-10 source/receiver geometry (offset 10). -/
def offsetHeader10 : TraceHeader :=
  { scalar_to_be_applied_to_all_coordinates := 1
    source_coordinate_x := 0
    source_coordinate_y := 0
    group_coordinate_x := 6
    group_coordinate_y := 8
    sample_interval_in_ms_for_this_trace := 4000 }

def normExTraceA : Trace := { header := offsetHeader0, data := [0, 1] }

def normExTraceB : Trace := { header := offsetHeader10, data := [2, 5] }

def normExStreams : List SUFile := [{ traces := [normExTraceA, normExTraceB] }]

def normExOut : List SUFile :=
  [{ traces := [{ header := offsetHeader0, data := [0, 10] },
                { header := offsetHeader10, data := [20 / 3, 50 / 3] }] }]

theorem sqrt_hundred : Real.sqrt 100 = 10 := by
  rw [show (100 : ℝ) = 10 ^ 2 by norm_num]
  exact Real.sqrt_sq (by norm_num)

theorem calcOffset_offsetHeader0 : _calcOffset normExTraceA = 0 := by
  norm_num [_calcOffset, effScalco, rawDistance, offsetHeader0, normExTraceA,
    Real.sqrt_zero]

theorem calcOffset_offsetHeader10 : _calcOffset normExTraceB = 10 := by
  norm_num [_calcOffset, effScalco, rawDistance, offsetHeader10, normExTraceB,
    sqrt_hundred]

theorem normalize_traces_range_witness :
    minOffsetSpacing normExStreams = some 5 ∧
    normalizeStreams Normalize.traces 5 2 normExStreams = some normExOut ∧
    traceRange { header := offsetHeader0, data := [0, 10] } = 5 * 2 := by
  have hm : minOffsetSpacing normExStreams = some 5 := by
    norm_num [minOffsetSpacing, mapOption, streamSpacing, normExStreams,
      calcOffset_offsetHeader0, calcOffset_offsetHeader10, foldMax, foldMin,
      max_def, min_def]
  have hrun : normalizeStreams Normalize.traces 5 2 normExStreams = some normExOut := by
    norm_num [normalizeStreams, globalRange, streamMax, streamMin, mapOption,
      traceMax, traceMin, normalizeStreamP, normalizeTraceP, traceRangeO,
      normTrace, normExStreams, normExTraceA, normExTraceB, normExOut,
      foldMax, foldMin, max_def, min_def, Option.bind]
  have hflat : ∀ st ∈ normExStreams, ∀ tr ∈ st.traces, traceRange tr ≠ 0 := by
    intro st hst tr htr
    simp only [normExStreams, List.mem_singleton] at hst
    subst hst
    simp only [normExTraceA, normExTraceB, List.mem_cons, List.mem_singleton,
      List.not_mem_nil, or_false] at htr
    rcases htr with h | h <;> subst h <;>
      norm_num [traceRange, foldMax, foldMin, max_def, min_def]
  refine ⟨hm, hrun, ?_⟩
  exact normalize_traces_range normExStreams normExOut 5 2 (by norm_num) hm hflat hrun
    { traces := [{ header := offsetHeader0, data := [0, 10] },
                 { header := offsetHeader10, data := [20 / 3, 50 / 3] }] }
    (by simp [normExOut])
    { header := offsetHeader0, data := [0, 10] }
    (by simp)

/-! ## Layout & Render Engine (lines 216-249) -/

/-- Line 229: the offset-shifted y-values `y = tr.data + offset`. -/
def traceY (tr : Trace) : List ℝ := tr.data.map fun s => s + _calcOffset tr

/-- `max(y)` (raises on an empty trace; 0 is junk for that case, which the
render step rules out). -/
def traceYMax (tr : Trace) : ℝ :=
  match traceY tr with
  | [] => 0
  | y :: ys => foldMax y ys

/-- `min(y)`. -/
def traceYMin (tr : Trace) : ℝ :=
  match traceY tr with
  | [] => 0
  | y :: ys => foldMin y ys

/-- Line 230 and 236: `max(x)` for `x = arange(len(tr.data)) * delta / 1e6`.
The list always contains index 0, i.e. the value 0, so seeding the fold
with 0 gives `max(x)` for every nonempty trace. -/
def traceXMax (delta : ℤ) (tr : Trace) : ℝ :=
  foldMax 0 ((List.range tr.data.length).map fun i => (i : ℝ) * (delta : ℝ) / 1000000)

/-- Running bounds of the plot loop (`np.Inf` sentinels of lines 217-219
modelled as `Option.none`) plus the list of traces actually drawn. -/
structure RenderState where
  min_y : Option ℝ
  max_y : Option ℝ
  max_x : Option ℝ
  drawn : List Trace

/-- Lines 232-237: `if v > max: max = v`. -/
def updMax (b : Option ℝ) (v : ℝ) : Option ℝ :=
  match b with
  | none => some v
  | some m => if v > m then some v else some m

def updMin (b : Option ℝ) (v : ℝ) : Option ℝ :=
  match b with
  | none => some v
  | some m => if v < m then some v else some m

/-- Lines 240-241: `ymin is not None and min(y) < ymin`. -/
def clipLow : Option ℝ → ℝ → Bool
  | none, _ => false
  | some v, lo => if lo < v then true else false

/-- Lines 242-243: `ymax is not None and max(y) > ymax`. -/
def clipHigh : Option ℝ → ℝ → Bool
  | none, _ => false
  | some v, hi => if hi > v then true else false

/-- The clip test of lines 239-243, against the explicit bounds only. -/
def isClipped (ymin ymax : Option ℝ) (tr : Trace) : Bool :=
  clipLow ymin (traceYMin tr) || clipHigh ymax (traceYMax tr)

/-- Lines 226-249 for one trace: bounds are tracked first (`max`/`min`
raise on an empty trace), then the trace is skipped (`continue`) when
clipping is enabled and it leaves the explicit bounds, else drawn. -/
def renderTrace (clip : Bool) (ymin ymax : Option ℝ) (delta : ℤ)
    (s : RenderState) (tr : Trace) : Option RenderState :=
  match tr.data with
  | [] => none
  | _ :: _ => some
    { min_y := updMin s.min_y (traceYMin tr)
      max_y := updMax s.max_y (traceYMax tr)
      max_x := updMax s.max_x (traceXMax delta tr)
      drawn := if clip && isClipped ymin ymax tr then s.drawn else s.drawn ++ [tr] }

def renderStream (clip : Bool) (ymin ymax : Option ℝ) (delta : ℤ) :
    RenderState → List Trace → Option RenderState
  | s, [] => some s
  | s, tr :: trs =>
    (renderTrace clip ymin ymax delta s tr).bind fun s' =>
      renderStream clip ymin ymax delta s' trs

/-- Lines 222-249: the full plot loop, collection order then trace order. -/
def renderAll (clip : Bool) (ymin ymax : Option ℝ) (delta : ℤ) :
    RenderState → List SUFile → Option RenderState
  | s, [] => some s
  | s, st :: sts =>
    (renderStream clip ymin ymax delta s st.traces).bind fun s' =>
      renderAll clip ymin ymax delta s' sts

def boundsOf (s : RenderState) : Option ℝ × Option ℝ × Option ℝ :=
  (s.min_y, s.max_y, s.max_x)

def allTraces : List SUFile → List Trace
  | [] => []
  | st :: sts => st.traces ++ allTraces sts

theorem renderStream_bounds_congr (ymin ymax : Option ℝ) (delta : ℤ) (c1 c2 : Bool) :
    ∀ (trs : List Trace) (s1 s2 : RenderState), boundsOf s1 = boundsOf s2 →
      Option.map boundsOf (renderStream c1 ymin ymax delta s1 trs) =
        Option.map boundsOf (renderStream c2 ymin ymax delta s2 trs) := by
  intro trs
  induction trs with
  | nil =>
    intro s1 s2 h
    simp only [renderStream, Option.map_some']
    rw [h]
  | cons tr trs ih =>
    intro s1 s2 h
    simp only [boundsOf, Prod.mk.injEq] at h
    obtain ⟨h1, h2, h3⟩ := h
    cases hd : tr.data with
    | nil => simp [renderStream, renderTrace, hd]
    | cons d ds =>
      simp only [renderStream, renderTrace, hd, Option.some_bind]
      exact ih _ _ (by simp [boundsOf, h1, h2, h3])

theorem renderAll_bounds_congr (ymin ymax : Option ℝ) (delta : ℤ) (c1 c2 : Bool) :
    ∀ (streams : List SUFile) (s1 s2 : RenderState), boundsOf s1 = boundsOf s2 →
      Option.map boundsOf (renderAll c1 ymin ymax delta s1 streams) =
        Option.map boundsOf (renderAll c2 ymin ymax delta s2 streams) := by
  intro streams
  induction streams with
  | nil =>
    intro s1 s2 h
    simp only [renderAll, Option.map_some']
    rw [h]
  | cons st sts ih =>
    intro s1 s2 h
    simp only [renderAll]
    have hstream := renderStream_bounds_congr ymin ymax delta c1 c2 st.traces s1 s2 h
    cases ht1 : renderStream c1 ymin ymax delta s1 st.traces with
    | none =>
      rw [ht1] at hstream
      cases ht2 : renderStream c2 ymin ymax delta s2 st.traces with
      | none => simp
      | some t2 => rw [ht2] at hstream; cases hstream
    | some t1 =>
      rw [ht1] at hstream
      cases ht2 : renderStream c2 ymin ymax delta s2 st.traces with
      | none => rw [ht2] at hstream; cases hstream
      | some t2 =>
        rw [ht2] at hstream
        simp only [Option.map_some'] at hstream
        simp only [Option.some_bind]
        exact ih t1 t2 (Option.some.inj hstream)

theorem renderStream_drawn_noclip (ymin ymax : Option ℝ) (delta : ℤ) :
    ∀ (trs : List Trace) (s s' : RenderState),
      renderStream false ymin ymax delta s trs = some s' →
      s'.drawn = s.drawn ++ trs := by
  intro trs
  induction trs with
  | nil =>
    intro s s' h
    injection h with h
    rw [← h, List.append_nil]
  | cons tr trs ih =>
    intro s s' h
    cases hd : tr.data with
    | nil => simp [renderStream, renderTrace, hd] at h
    | cons d ds =>
      simp only [renderStream, renderTrace, hd, Option.some_bind,
        Bool.false_and, if_neg Bool.false_ne_true] at h
      rw [ih _ _ h]
      simp [List.append_assoc]

theorem renderStream_drawn_clip (ymin ymax : Option ℝ) (delta : ℤ) :
    ∀ (trs : List Trace) (s s' : RenderState),
      renderStream true ymin ymax delta s trs = some s' →
      s'.drawn = s.drawn ++ trs.filter fun tr => ! isClipped ymin ymax tr := by
  intro trs
  induction trs with
  | nil =>
    intro s s' h
    injection h with h
    rw [← h, List.filter_nil, List.append_nil]
  | cons tr trs ih =>
    intro s s' h
    cases hd : tr.data with
    | nil => simp [renderStream, renderTrace, hd] at h
    | cons d ds =>
      simp only [renderStream, renderTrace, hd, Option.some_bind, Bool.true_and] at h
      rw [List.filter_cons]
      cases hclip : isClipped ymin ymax tr with
      | true =>
        rw [hclip, if_pos rfl] at h
        rw [ih _ _ h]
        simp [hclip]
      | false =>
        rw [hclip, if_neg (by simp)] at h
        rw [ih _ _ h]
        simp [hclip, List.append_assoc]

theorem renderAll_drawn_noclip (ymin ymax : Option ℝ) (delta : ℤ) :
    ∀ (streams : List SUFile) (s s' : RenderState),
      renderAll false ymin ymax delta s streams = some s' →
      s'.drawn = s.drawn ++ allTraces streams := by
  intro streams
  induction streams with
  | nil =>
    intro s s' h
    injection h with h
    rw [← h, allTraces, List.append_nil]
  | cons st sts ih =>
    intro s s' h
    simp only [renderAll] at h
    rcases Option.bind_eq_some.mp h with ⟨t, ht, hrest⟩
    rw [ih _ _ hrest, renderStream_drawn_noclip ymin ymax delta _ _ _ ht,
      allTraces, List.append_assoc]

theorem renderAll_drawn_clip (ymin ymax : Option ℝ) (delta : ℤ) :
    ∀ (streams : List SUFile) (s s' : RenderState),
      renderAll true ymin ymax delta s streams = some s' →
      s'.drawn = s.drawn ++ (allTraces streams).filter fun tr => ! isClipped ymin ymax tr := by
  intro streams
  induction streams with
  | nil =>
    intro s s' h
    injection h with h
    rw [← h, allTraces, List.filter_nil, List.append_nil]
  | cons st sts ih =>
    intro s s' h
    simp only [renderAll] at h
    rcases Option.bind_eq_some.mp h with ⟨t, ht, hrest⟩
    rw [ih _ _ hrest, renderStream_drawn_clip ymin ymax delta _ _ _ ht,
      allTraces, List.filter_append, List.append_assoc]

/-- C4: clipping only suppresses drawing, never measurement.  First, the
axis-bound tracking is identical with clipping enabled or disabled.
Second, with clipping disabled every trace is drawn, in order.  Third,
with clipping enabled exactly the traces whose offset-shifted values stay
within the explicit `ymin`/`ymax` bounds are drawn; a trace partly outside
them is excluded from the drawn output entirely while still entering the
bound tracking (first conjunct). -/
theorem clip_skips_draw_only_spec (ymin ymax : Option ℝ) (delta : ℤ)
    (s : RenderState) (streams : List SUFile) :
    Option.map boundsOf (renderAll true ymin ymax delta s streams) =
      Option.map boundsOf (renderAll false ymin ymax delta s streams) ∧
    (∀ s', renderAll false ymin ymax delta s streams = some s' →
      s'.drawn = s.drawn ++ allTraces streams) ∧
    (∀ s', renderAll true ymin ymax delta s streams = some s' →
      s'.drawn = s.drawn ++ (allTraces streams).filter fun tr => ! isClipped ymin ymax tr) :=
  ⟨renderAll_bounds_congr ymin ymax delta true false streams s s rfl,
    fun s' h => renderAll_drawn_noclip ymin ymax delta streams s s' h,
    fun s' h => renderAll_drawn_clip ymin ymax delta streams s s' h⟩

def initState : RenderState := { min_y := none, max_y := none, max_x := none, drawn := [] }

def renderExP : Trace := { header := offsetHeader0, data := [0, 1] }

def renderExQ : Trace := { header := offsetHeader0, data := [5, 6] }

def renderExStreams : List SUFile := [{ traces := [renderExP, renderExQ] }]

def renderExFinal : RenderState :=
  { min_y := some 0, max_y := some 6, max_x := some 2, drawn := [renderExP] }

theorem clip_skips_draw_only_witness :
    Option.map boundsOf (renderAll true none (some 2) 2000000 initState renderExStreams) =
      Option.map boundsOf (renderAll false none (some 2) 2000000 initState renderExStreams) ∧
    renderAll true none (some 2) 2000000 initState renderExStreams = some renderExFinal ∧
    renderExFinal.drawn =
      initState.drawn ++
        ((allTraces renderExStreams).filter fun tr => ! isClipped none (some 2) tr) ∧
    renderExFinal.drawn = [renderExP] := by
  have hr2 : List.range 2 = [0, 1] := rfl
  have hrun : renderAll true none (some 2) 2000000 initState renderExStreams =
      some renderExFinal := by
    norm_num [renderAll, renderStream, renderTrace, renderExStreams, renderExP,
      renderExQ, initState, renderExFinal, traceYMin, traceYMax, traceXMax,
      traceY, isClipped, clipLow, clipHigh, updMin, updMax, _calcOffset,
      effScalco, rawDistance, offsetHeader0, Real.sqrt_zero, foldMax, foldMin,
      max_def, min_def, hr2, Option.some_bind]
  exact ⟨(clip_skips_draw_only_spec none (some 2) 2000000 initState renderExStreams).1,
    hrun,
    (clip_skips_draw_only_spec none (some 2) 2000000 initState renderExStreams).2.2
      renderExFinal hrun,
    rfl⟩

/-! ## Axis bounds (lines 251-264) -/

/-- Lines 251-257: the final y limits from the explicit options and the
observed running bounds. -/
def yLimits (ymin ymax : Option ℝ) (min_y max_y : ℝ) : ℝ × ℝ :=
  (match ymin with
   | none => min_y - (max_y - min_y) / 50
   | some v => if v < min_y then min_y - (max_y - min_y) / 50 else v,
   match ymax with
   | none => max_y + (max_y - min_y) / 50
   | some v => if v > max_y then max_y + (max_y - min_y) / 50 else v)

/-- Lines 259-264: the final x limits. -/
def xLimits (xmin xmax : Option ℝ) (max_x : ℝ) : ℝ × ℝ :=
  (match xmin with
   | none => 0
   | some v => if v < 0 then 0 else v,
   match xmax with
   | none => max_x
   | some v => if v > max_x then max_x else v)

/-- C3 counterexample: with observed y range [-2, 3], the explicit
`ymax = 100` — wider than the data and wider than the padded auto-range,
so the claim says it is honored — is replaced by the padded bound 3.1. -/
theorem yLimits_wide_explicit_bound_ignored :
    (yLimits none (some 100) (-2) 3).2 ≠ 100 := by
  norm_num [yLimits]

/-- C3 (amended): with no explicit bounds the final y bounds are the
observed ones padded by span/50 on each side; an explicit y bound can only
shrink the range, never expand it: a bound at or inside the observed range
is honored, while a bound strictly outside the observed range is replaced
by the padded auto-bound. -/
theorem yLimits_spec (min_y max_y v : ℝ) :
    yLimits none none min_y max_y =
      (min_y - (max_y - min_y) / 50, max_y + (max_y - min_y) / 50) ∧
    (v ≤ max_y → (yLimits none (some v) min_y max_y).2 = v) ∧
    (max_y < v → (yLimits none (some v) min_y max_y).2 = max_y + (max_y - min_y) / 50) ∧
    (min_y ≤ v → (yLimits (some v) none min_y max_y).1 = v) ∧
    (v < min_y → (yLimits (some v) none min_y max_y).1 = min_y - (max_y - min_y) / 50) := by
  refine ⟨rfl, ?_, ?_, ?_, ?_⟩
  · intro h
    simp only [yLimits]
    rw [if_neg (not_lt.mpr h)]
  · intro h
    simp only [yLimits]
    rw [if_pos h]
  · intro h
    simp only [yLimits]
    rw [if_neg (not_lt.mpr h)]
  · intro h
    simp only [yLimits]
    rw [if_pos h]

theorem yLimits_spec_witness :
    yLimits none none (-2) 3 = (-21 / 10, 31 / 10) ∧
    ((1 : ℝ) ≤ 3) ∧ (yLimits none (some 1) (-2) 3).2 = 1 := by
  refine ⟨?_, by norm_num, (yLimits_spec (-2) 3 1).2.1 (by norm_num)⟩
  rw [(yLimits_spec (-2) 3 1).1]
  norm_num

/-- C9: the lower x bound is floored at 0 (an absent or negative explicit
`xmin` gives 0, a nonnegative one is honored); the upper x bound is the
observed maximum unless a smaller explicit `xmax` is supplied, which is
honored — x bounds, unlike y bounds, allow shrinking below the observed
maximum but never expansion above it. -/
theorem xLimits_spec (max_x v : ℝ) :
    xLimits none none max_x = (0, max_x) ∧
    (v < 0 → (xLimits (some v) none max_x).1 = 0) ∧
    (0 ≤ v → (xLimits (some v) none max_x).1 = v) ∧
    (v ≤ max_x → (xLimits none (some v) max_x).2 = v) ∧
    (max_x < v → (xLimits none (some v) max_x).2 = max_x) := by
  refine ⟨rfl, ?_, ?_, ?_, ?_⟩
  · intro h
    simp only [xLimits]
    rw [if_pos h]
  · intro h
    simp only [xLimits]
    rw [if_neg (not_lt.mpr h)]
  · intro h
    simp only [xLimits]
    rw [if_neg (not_lt.mpr h)]
  · intro h
    simp only [xLimits]
    rw [if_pos h]

theorem xLimits_spec_witness :
    ((-5 : ℝ) < 0) ∧ (xLimits (some (-5)) none 7).1 = 0 ∧
    ((4 : ℝ) ≤ 7) ∧ (xLimits none (some 4) 7).2 = 4 :=
  ⟨by norm_num, (xLimits_spec 7 (-5)).2.1 (by norm_num), by norm_num,
    (xLimits_spec 7 4).2.2.2.1 (by norm_num)⟩

/-! ## The whole pipeline (`plotBenchmark`, lines 124-264) -/

/-- The outcome of one invocation, with the rendering-library side effects
abstracted away: `empty` is the line 124-125 early return (nothing is
produced at all), `plotted` carries the drawn curves and the final axis
limits. -/
inductive PlotResult where
  | empty : PlotResult
  | plotted (drawn : List Trace) (ylim : ℝ × ℝ) (xlim : ℝ × ℝ) : PlotResult

/-- The data-preparation and layout pipeline of `plotBenchmark` (figure,
label, color and file-output plumbing omitted): empty-input short circuit,
first-trace sample-interval lookup, trimming, offset spacing,
normalization, plot loop, axis limits. -/
def plotBenchmarkModel (normalize : Normalize) (clip : Bool) (scale : ℝ)
    (xmin xmax ymin ymax : Option ℝ) (trim : Bool)
    (streams : List SUFile) : Option PlotResult :=
  match streams with
  | [] => some PlotResult.empty
  | s0 :: rest =>
    match s0.traces with
    | [] => none
    | t0 :: _ =>
      (trimStage trim (s0 :: rest)).bind fun streams1 =>
        (minOffsetSpacing streams1).bind fun m =>
          (normalizeStreams normalize m scale streams1).bind fun streams2 =>
            (renderAll clip ymin ymax
                t0.header.sample_interval_in_ms_for_this_trace initState streams2).bind
              fun s' =>
                match s'.min_y, s'.max_y, s'.max_x with
                | some mny, some mxy, some mxx =>
                  some (PlotResult.plotted s'.drawn (yLimits ymin ymax mny mxy)
                    (xLimits xmin xmax mxx))
                | _, _, _ => none

/-- C8: an empty collection list short-circuits the whole pipeline: the
benign `empty` result is returned — nothing drawn, no bounds, no canvas —
and no error is raised. -/
theorem empty_input_noop (normalize : Normalize) (clip : Bool) (scale : ℝ)
    (xmin xmax ymin ymax : Option ℝ) (trim : Bool) :
    plotBenchmarkModel normalize clip scale xmin xmax ymin ymax trim [] =
      some PlotResult.empty := rfl

/-- C10: the benign no-op is only for an empty collection list; a nonempty
list containing a collection with zero traces makes the pipeline fail (at
the first-trace lookup, the trimming minimum, or the offset-spacing
computation) before anything is drawn. -/
theorem empty_collection_fails (normalize : Normalize) (clip : Bool) (scale : ℝ)
    (xmin xmax ymin ymax : Option ℝ) (trim : Bool)
    (s0 : SUFile) (rest : List SUFile) (st : SUFile)
    (hmem : st ∈ s0 :: rest) (hempty : st.traces = []) :
    plotBenchmarkModel normalize clip scale xmin xmax ymin ymax trim (s0 :: rest) = none := by
  cases h0 : s0.traces with
  | nil => simp [plotBenchmarkModel, h0]
  | cons t0 ts =>
    have hsm : streamMinNpts st = none := by
      simp [streamMinNpts, hempty]
    have hss : streamSpacing st = none := by
      simp [streamSpacing, hempty]
    cases trim with
    | true =>
      have hgl : globalMinLen (s0 :: rest) = none := by
        unfold globalMinLen
        rw [mapOption_eq_none_of_mem hmem hsm]
      simp [plotBenchmarkModel, h0, trimStage, hgl]
    | false =>
      have hmo : minOffsetSpacing (s0 :: rest) = none := by
        unfold minOffsetSpacing
        rw [mapOption_eq_none_of_mem hmem hss]
      simp [plotBenchmarkModel, h0, trimStage, hmo]

def c10Streams : List SUFile := [{ traces := [normExTraceA] }, { traces := [] }]

theorem empty_collection_fails_witness :
    (SUFile.mk [] ∈ c10Streams) ∧
    plotBenchmarkModel Normalize.traces true 3 none none none none true c10Streams = none := by
  have hmem : (SUFile.mk ([] : List Trace)) ∈ c10Streams := by simp [c10Streams]
  exact ⟨hmem,
    empty_collection_fails Normalize.traces true 3 none none none none true
      { traces := [normExTraceA] } [SUFile.mk []] (SUFile.mk []) hmem rfl⟩

end

end Benchmark
